import Mathlib

/-!
Shallow embedding of the detached-shell session daemon (NorasTech/detached-shell)
and proofs about its specification claims.

Bytes are modelled as natural numbers (values < 256 in practice), byte buffers as
lists, and the stateful Rust code as explicit state-passing Lean functions.  Each
definition is translated from the corresponding Rust function, named after it
where Lean permits.
-/

namespace DetachedShell

/-! ## Output ring (src/pty_buffer.rs, PtyBuffer) -/

/-- Embedding of `PtyBuffer`: a FIFO of byte chunks with a running byte total and
a byte cap (`max_size`).  The `Arc<Mutex<..>>` wrappers are dropped: the daemon
is single-threaded over this state. -/
structure PtyBuffer where
  buffer : List (List Nat)
  total_bytes : Nat
  max_size : Nat
deriving Repr, DecidableEq

/-- Embedding of `PtyBuffer::new`. -/
def PtyBuffer.new (max_size : Nat) : PtyBuffer :=
  { buffer := [], total_bytes := 0, max_size := max_size }

/-- The eviction loop inside `PtyBuffer::push`: while the running total exceeds
`max` and the deque is non-empty, pop the oldest chunk and subtract its length. -/
def evictLoop (max : Nat) : List (List Nat) → Nat → List (List Nat) × Nat
  | [], total => ([], total)
  | c :: rest, total =>
      if max < total then evictLoop max rest (total - c.length)
      else (c :: rest, total)

/-- Embedding of `PtyBuffer::push`: append the chunk, add its length to the
total, then run the eviction loop. -/
def PtyBuffer.push (b : PtyBuffer) (data : List Nat) : PtyBuffer :=
  let res := evictLoop b.max_size (b.buffer ++ [data]) (b.total_bytes + data.length)
  { buffer := res.1, total_bytes := res.2, max_size := b.max_size }

/-- The drain loop inside `PtyBuffer::drain_to`: pop chunks from the front,
extending the output with each. -/
def drainLoop : List (List Nat) → List Nat → List Nat
  | [], out => out
  | c :: rest, out => drainLoop rest (out ++ c)

/-- Embedding of `PtyBuffer::drain_to`: returns the emptied buffer and the
extended output vector. -/
def PtyBuffer.drain_to (b : PtyBuffer) (output : List Nat) : PtyBuffer × List Nat :=
  ({ b with buffer := [], total_bytes := 0 }, drainLoop b.buffer output)

/-- Embedding of `PtyBuffer::is_empty`. -/
def PtyBuffer.is_empty (b : PtyBuffer) : Bool :=
  b.buffer.isEmpty

/-- Well-formedness tying the cached running total to the actual chunk lengths;
`PtyBuffer::new` establishes it and every operation preserves it. -/
def PtyBuffer.WF (b : PtyBuffer) : Prop :=
  b.total_bytes = (b.buffer.map List.length).sum

/-- Pushing a list of chunks in order (used to state the flood property). -/
def PtyBuffer.pushAll (b : PtyBuffer) : List (List Nat) → PtyBuffer
  | [] => b
  | c :: rest => (b.push c).pushAll rest

theorem drainLoop_eq (l : List (List Nat)) (out : List Nat) :
    drainLoop l out = out ++ l.flatten := by
  induction l generalizing out with
  | nil => simp [drainLoop]
  | cons c rest ih => simp [drainLoop, ih]

theorem evictLoop_sum (max : Nat) (l : List (List Nat)) (total : Nat)
    (h : total = (l.map List.length).sum) :
    (evictLoop max l total).2 = ((evictLoop max l total).1.map List.length).sum := by
  induction l generalizing total with
  | nil => simpa [evictLoop] using h
  | cons c rest ih =>
      simp only [evictLoop]
      by_cases hc : max < total
      · simp only [hc, if_true]
        apply ih
        simp only [List.map_cons, List.sum_cons] at h
        omega
      · simpa [hc] using h

theorem evictLoop_le (max : Nat) (l : List (List Nat)) (total : Nat)
    (h : total = (l.map List.length).sum) :
    (evictLoop max l total).2 ≤ max := by
  induction l generalizing total with
  | nil =>
      simp only [List.map_nil, List.sum_nil] at h
      simp [evictLoop, h]
  | cons c rest ih =>
      simp only [evictLoop]
      by_cases hc : max < total
      · simp only [hc, if_true]
        apply ih
        simp only [List.map_cons, List.sum_cons] at h
        omega
      · simpa [hc] using Nat.le_of_not_lt hc

theorem evictLoop_suffix (max : Nat) (l : List (List Nat)) (total : Nat) :
    ∃ k, (evictLoop max l total).1 = l.drop k := by
  induction l generalizing total with
  | nil => exact ⟨0, rfl⟩
  | cons c rest ih =>
      simp only [evictLoop]
      by_cases hc : max < total
      · obtain ⟨k, hk⟩ := ih (total - c.length)
        exact ⟨k + 1, by simpa [hc] using hk⟩
      · exact ⟨0, by simp [hc]⟩

theorem push_wf (b : PtyBuffer) (data : List Nat) (h : b.WF) :
    (b.push data).WF := by
  unfold PtyBuffer.WF at h ⊢
  unfold PtyBuffer.push
  apply evictLoop_sum
  simp [h]

theorem push_le_cap (b : PtyBuffer) (data : List Nat) (h : b.WF) :
    (b.push data).total_bytes ≤ b.max_size := by
  unfold PtyBuffer.WF at h
  unfold PtyBuffer.push
  apply evictLoop_le
  simp [h]

theorem pushAll_wf (b : PtyBuffer) (chunks : List (List Nat)) (h : b.WF) :
    (b.pushAll chunks).WF := by
  induction chunks generalizing b with
  | nil => exact h
  | cons c rest ih => exact ih _ (push_wf _ _ h)

theorem pushAll_max (b : PtyBuffer) (chunks : List (List Nat)) :
    (b.pushAll chunks).max_size = b.max_size := by
  induction chunks generalizing b with
  | nil => rfl
  | cons c rest ih => simpa [PtyBuffer.pushAll] using ih (b.push c)

theorem pushAll_le_cap (b : PtyBuffer) (chunks : List (List Nat)) (h : b.WF)
    (h2 : b.total_bytes ≤ b.max_size) :
    (b.pushAll chunks).total_bytes ≤ b.max_size := by
  induction chunks generalizing b with
  | nil => exact h2
  | cons c rest ih =>
      have hm : (b.push c).max_size = b.max_size := rfl
      have := ih (b.push c) (push_wf _ _ h) (by rw [hm]; exact push_le_cap _ _ h)
      simpa [PtyBuffer.pushAll, hm] using this

/-- Claim C6: the ring's running byte total never exceeds its cap after any push;
eviction drops whole oldest chunks (the surviving deque is a suffix of the pushed
deque, so chunks are never split); and pushing chunks totalling `2 * cap` bytes
into a fresh ring and then draining yields at most `cap` bytes. -/
theorem ring_cap_invariant (b : PtyBuffer) (data : List Nat) (cap : Nat)
    (chunks : List (List Nat)) (hwf : b.WF)
    (_hflood : (chunks.map List.length).sum = 2 * cap) :
    (b.push data).WF ∧
    (b.push data).total_bytes ≤ b.max_size ∧
    (∃ k, (b.push data).buffer = (b.buffer ++ [data]).drop k) ∧
    (((PtyBuffer.new cap).pushAll chunks).drain_to []).2.length ≤ cap := by
  refine ⟨push_wf _ _ hwf, push_le_cap _ _ hwf, ?_, ?_⟩
  · exact evictLoop_suffix _ _ _
  · have hwf0 : (PtyBuffer.new cap).WF := by simp [PtyBuffer.new, PtyBuffer.WF]
    have hle : ((PtyBuffer.new cap).pushAll chunks).total_bytes ≤ cap :=
      pushAll_le_cap _ _ hwf0 (by simp [PtyBuffer.new])
    have hwf1 := pushAll_wf (PtyBuffer.new cap) chunks hwf0
    unfold PtyBuffer.drain_to
    rw [drainLoop_eq]
    unfold PtyBuffer.WF at hwf1
    simpa [← hwf1] using hle

/-- Witness for `ring_cap_invariant` at a concrete ring and flood. -/
theorem ring_cap_invariant_witness :
    ((PtyBuffer.new 3).push [1, 2]).WF ∧
    (((PtyBuffer.new 3).push [1, 2]).push [3, 4]).total_bytes ≤ 3 := by
  have h := ring_cap_invariant ((PtyBuffer.new 3).push [1, 2]) [3, 4] 3
    [[1, 1, 1], [2, 2, 2]]
    (by rfl) (by decide)
  exact ⟨by rfl, h.2.1⟩

/-- Claim C9: `drain_to` fully empties the ring (is_empty, total zero) and the
output is extended with exactly the concatenation of all buffered chunks in FIFO
push order. -/
theorem drain_to_empties_and_preserves (b : PtyBuffer) (out : List Nat) :
    (b.drain_to out).1.is_empty = true ∧
    (b.drain_to out).1.total_bytes = 0 ∧
    (b.drain_to out).2 = out ++ b.buffer.flatten := by
  refine ⟨rfl, rfl, ?_⟩
  unfold PtyBuffer.drain_to
  exact drainLoop_eq _ _

/-! ## Attach-client escape recognizer (src/pty/spawn.rs, PtyProcess::process_input) -/

/-- Result of one `process_input` call: the three command flags, the bytes to
forward to the session socket, and the updated recognizer state
(`at_line_start`, `escape_state`). -/
structure ProcessResult where
  should_detach : Bool
  should_switch : Bool
  should_scroll : Bool
  data_to_forward : List Nat
  at_line_start : Bool
  escape_state : Nat
deriving Repr, DecidableEq

/-- The per-byte loop of `process_input`.  A Ctrl-D (0x04) breaks immediately
with `should_detach`; state 0 starts an escape on a tilde (0x7e = 126) at line
start; state 1 dispatches on the second byte (`d` = 100, `s` = 115, `h` = 104,
tilde = 126); `break` leaves the recognizer state as it stood. -/
def processBytes : List Nat → Bool → Nat → List Nat → ProcessResult
  | [], als, es, acc => ⟨false, false, false, acc, als, es⟩
  | b :: rest, als, es, acc =>
      if b = 4 then ⟨true, false, false, acc, als, es⟩
      else if es = 0 then
        if als && b == 126 then processBytes rest als 1 acc
        else processBytes rest (b == 13 || b == 10) 0 (acc ++ [b])
      else if es = 1 then
        if b = 100 then ⟨true, false, false, acc, als, es⟩
        else if b = 115 then ⟨false, true, false, acc, als, es⟩
        else if b = 104 then ⟨false, false, true, acc, als, es⟩
        else if b = 126 then processBytes rest false 0 (acc ++ [126])
        else processBytes rest (b == 13 || b == 10) 0 (acc ++ [126, b])
      else processBytes rest als 0 acc

/-- Embedding of `PtyProcess::process_input`.  The `escape_time` Instant is
abstracted to `timeoutElapsed`: whether more than 1 s has passed since the held
tilde was recorded, sampled once at function entry exactly as in the source. -/
def process_input (buffer : List Nat) (at_line_start : Bool) (escape_state : Nat)
    (timeoutElapsed : Bool) : ProcessResult :=
  if escape_state = 1 ∧ timeoutElapsed = true then
    processBytes buffer at_line_start 0 [126]
  else
    processBytes buffer at_line_start escape_state []

/-- Claim C7: if a tilde was consumed at line start (state 1) and over 1 s
elapses before the next byte, the held tilde is emitted and the recognizer
returns to Normal; concretely, a tilde at line start followed after an over-1 s
gap by `d` forwards the literal bytes `~d` and requests no detach. -/
theorem escape_timeout_emits_tilde :
    (∀ als : Bool, (process_input [] als 1 true).data_to_forward = [126] ∧
      (process_input [] als 1 true).escape_state = 0 ∧
      (process_input [] als 1 true).should_detach = false) ∧
    ((process_input [126] true 0 false).data_to_forward = [] ∧
      (process_input [126] true 0 false).escape_state = 1 ∧
      (process_input [126] true 0 false).should_detach = false) ∧
    ((process_input [100] (process_input [126] true 0 false).at_line_start
        (process_input [126] true 0 false).escape_state true).data_to_forward
        = [126, 100] ∧
      (process_input [100] (process_input [126] true 0 false).at_line_start
        (process_input [126] true 0 false).escape_state true).should_detach = false ∧
      (process_input [100] (process_input [126] true 0 false).at_line_start
        (process_input [126] true 0 false).escape_state true).escape_state = 0) := by
  refine ⟨fun als => ?_, by decide, by decide⟩
  cases als <;> decide

/-- A `processBytes` run that ran to completion (never hit a `break`): none of
the three command flags is set. -/
def noCommandBreak (r : ProcessResult) : Prop :=
  r.should_detach = false ∧ r.should_switch = false ∧ r.should_scroll = false

theorem processBytes_append (pre rest : List Nat) (als : Bool) (es : Nat)
    (acc : List Nat) (h : noCommandBreak (processBytes pre als es acc)) :
    processBytes (pre ++ rest) als es acc =
      processBytes rest (processBytes pre als es acc).at_line_start
        (processBytes pre als es acc).escape_state
        (processBytes pre als es acc).data_to_forward := by
  induction pre generalizing als es acc with
  | nil => rfl
  | cons b pre ih =>
      obtain ⟨h1, h2, h3⟩ := h
      by_cases hb4 : b = 4
      · subst hb4
        simp [processBytes] at h1
      · by_cases hes0 : es = 0
        · subst hes0
          by_cases htl : (als && b == 126) = true
          · simp only [List.cons_append, processBytes, if_neg hb4, if_pos rfl, htl,
              if_true] at h1 h2 h3 ⊢
            exact ih _ _ _ ⟨h1, h2, h3⟩
          · simp only [List.cons_append, processBytes, if_neg hb4, if_pos rfl,
              htl] at h1 h2 h3 ⊢
            exact ih _ _ _ ⟨h1, h2, h3⟩
        · by_cases hes1 : es = 1
          · subst hes1
            by_cases hd : b = 100
            · subst hd
              simp [processBytes] at h1
            · by_cases hs : b = 115
              · subst hs
                simp [processBytes, hb4] at h2
              · by_cases hh : b = 104
                · subst hh
                  simp [processBytes, hb4, hs] at h3
                · by_cases ht : b = 126
                  · subst ht
                    simp only [List.cons_append, processBytes, if_neg hb4,
                      if_neg (by omega : ¬(1 : Nat) = 0), if_pos rfl, if_neg hd,
                      if_neg hs, if_neg hh, if_pos rfl] at h1 h2 h3 ⊢
                    exact ih _ _ _ ⟨h1, h2, h3⟩
                  · simp only [List.cons_append, processBytes, if_neg hb4,
                      if_neg (by omega : ¬(1 : Nat) = 0), if_pos rfl, if_neg hd,
                      if_neg hs, if_neg hh, if_neg ht] at h1 h2 h3 ⊢
                    exact ih _ _ _ ⟨h1, h2, h3⟩
          · simp only [List.cons_append, processBytes, if_neg hb4, if_neg hes0,
              if_neg hes1] at h1 h2 h3 ⊢
            exact ih _ _ _ ⟨h1, h2, h3⟩

/-- Claim C10: when a chunk contains Ctrl-D (0x04) and the recognizer consumed
all bytes before it without an escape-command break, processing stops at the
Ctrl-D: detach is requested, and the forwarded bytes are exactly those produced
by the bytes before the Ctrl-D — neither 0x04 nor anything after it in the
chunk reaches the socket. -/
theorem ctrl_d_stops_processing (pre post : List Nat) (als : Bool) (es : Nat)
    (t : Bool) (h : noCommandBreak (process_input pre als es t)) :
    (process_input (pre ++ 4 :: post) als es t).should_detach = true ∧
    (process_input (pre ++ 4 :: post) als es t).data_to_forward
      = (process_input pre als es t).data_to_forward ∧
    (process_input (pre ++ 4 :: post) als es t).should_switch = false ∧
    (process_input (pre ++ 4 :: post) als es t).should_scroll = false := by
  unfold process_input at h ⊢
  by_cases hc : es = 1 ∧ t = true
  · simp only [hc, if_pos, and_self, if_true] at h ⊢
    rw [processBytes_append pre (4 :: post) als 0 [126] h]
    simp [processBytes]
  · simp only [if_neg hc] at h ⊢
    rw [processBytes_append pre (4 :: post) als es [] h]
    simp [processBytes]

/-- Witness for `ctrl_d_stops_processing`: the chunk `a\x04bc` forwards only
`a`, requests detach, and discards the Ctrl-D and everything after it. -/
theorem ctrl_d_stops_processing_witness :
    (process_input [97, 4, 98, 99] false 0 false).should_detach = true ∧
    (process_input [97, 4, 98, 99] false 0 false).data_to_forward
      = (process_input [97] false 0 false).data_to_forward := by
  have h := ctrl_d_stops_processing [97] [98, 99] false 0 false ⟨rfl, rfl, rfl⟩
  exact ⟨h.1, h.2.1⟩

/-! ## Daemon read path (src/pty/spawn.rs, PtyProcess::read_from_pty and the
read match inside PtyProcess::run_detached) -/

/-- Outcome of the raw `read` on the PTY master, as seen by
`PtyProcess::read_from_pty` (via `PtyIoHandler::read_from_pty`). -/
inductive PtyReadRaw where
  | ok (n : Nat) (bytes : List Nat)
  | errWouldBlock
  | errOther
deriving Repr, DecidableEq

/-- Embedding of `PtyProcess::read_from_pty`: `Ok(0)` (shell exited) returns
`Ok(None)` — the session is kept alive for restart; `Ok(n)` returns the bytes;
`WouldBlock` returns `Ok(None)`; other errors propagate. -/
def read_from_pty : PtyReadRaw → Except Unit (Option (List Nat))
  | .ok 0 _ => .ok none
  | .ok (_ + 1) bytes => .ok (some bytes)
  | .errWouldBlock => .ok none
  | .errOther => .error ()

/-- The (best-effort) log line `PtyProcess::read_from_pty` emits, if any. -/
def readLog : PtyReadRaw → Option String
  | .ok 0 _ => some "Shell process exited, session remains alive for restart"
  | _ => none

/-- What the `run_detached` loop body does with the result of `read_from_pty`:
`Ok(Some(data))` broadcasts, `Ok(None)` is treated as no data, `Err` enters the
consecutive-error recovery path. -/
inductive TickReadEffect where
  | broadcastData (data : List Nat)
  | noData
  | errorRecovery
deriving Repr, DecidableEq

/-- The dispatch `run_detached` performs on `read_from_pty`'s result. -/
def tickReadEffect (raw : PtyReadRaw) : TickReadEffect :=
  match read_from_pty raw with
  | .ok (some data) => .broadcastData data
  | .ok none => .noData
  | .error _ => .errorRecovery

/-- Whether the `run_detached` loop keeps running after the read dispatch of one
tick: the only early `return` in the loop body is the error-recovery path when
the consecutive-error counter reaches 10 and the health monitor reports
unhealthy; broadcast and no-data always continue. -/
def tickReadContinues (e : TickReadEffect) (consecutive_pty_errors : Nat)
    (healthy : Bool) : Bool :=
  match e with
  | .errorRecovery => !(10 ≤ consecutive_pty_errors + 1 && !healthy)
  | _ => true

/-- Claim C1 counterexample: the claim says a 0-byte master read marks the
session for shutdown so the daemon loop terminates; in the code the 0-byte read
is logged as "session remains alive for restart", returned as no-data, and the
loop continues (it is not the error-exit path). -/
theorem zero_read_keeps_session_alive :
    tickReadEffect (.ok 0 []) = .noData ∧
    tickReadEffect (.ok 0 []) ≠ .errorRecovery ∧
    tickReadContinues (tickReadEffect (.ok 0 [])) 0 true = true ∧
    readLog (.ok 0 []) = some "Shell process exited, session remains alive for restart" := by
  refine ⟨rfl, by decide, rfl, rfl⟩

/-- Claim C1 amended: whenever a read from the PTY master returns 0 bytes, the
daemon logs that the shell exited and the session remains alive, and treats the
read as no-data: the loop continues for every error-counter and health state;
the session is never marked for shutdown by a 0-byte read. -/
theorem zero_read_treated_as_no_data :
    read_from_pty (.ok 0 []) = .ok none ∧
    readLog (.ok 0 []) = some "Shell process exited, session remains alive for restart" ∧
    tickReadEffect (.ok 0 []) = .noData ∧
    (∀ (n : Nat) (healthy : Bool),
      tickReadContinues (tickReadEffect (.ok 0 [])) n healthy = true) := by
  exact ⟨rfl, rfl, rfl, fun n healthy => rfl⟩

/-! ## Session registry (src/session.rs, Session::load / Session::cleanup /
Session::is_socket_healthy) -/

/-- The fields of the persisted `Session` record that the load/cleanup logic
reads (the remaining fields are carried opaquely by the JSON). -/
structure SessionRecord where
  id : String
  pid : Int
  socket_path : String
deriving Repr, DecidableEq

/-- The on-disk and process state that `Session::load`, `Session::cleanup` and
`Session::is_socket_healthy` consult: the parsed contents of
`sessions/<id>.json` files, the set of present `sockets/<id>.sock` and
`sessions/<id>.status` files, the set of PIDs for which `kill(pid, 0)`
succeeds, and the set of socket paths a `connect()` reaches. -/
structure SysState where
  jsonFiles : List (String × SessionRecord)
  socketFiles : List String
  statusFiles : List String
  alivePids : List Int
  reachableSockets : List String
deriving Repr, DecidableEq

/-- Lookup of `sessions/<id>.json` (`path.exists()` + read + parse). -/
def SysState.findJson (s : SysState) (id : String) : Option SessionRecord :=
  (s.jsonFiles.find? (fun p => p.1 == id)).map Prod.snd

/-- Embedding of `fs::remove_file` on a modelled file set: fails if absent. -/
def removeFile (files : List String) (k : String) : Except Unit (List String) :=
  if k ∈ files then .ok (files.filter (fun f => f ≠ k)) else .error ()

/-- One `if path.exists() { fs::remove_file(path)?; }` step of cleanup. -/
def removeIfPresent (files : List String) (k : String) : Except Unit (List String) :=
  if k ∈ files then removeFile files k else .ok files

/-- Embedding of `Session::is_process_alive`. -/
def is_process_alive (s : SysState) (pid : Int) : Bool :=
  s.alivePids.contains pid

/-- Embedding of `Session::is_socket_healthy`: true iff a connect on the socket
path succeeds (the read/write timeouts set afterwards are best-effort). -/
def is_socket_healthy (s : SysState) (socket_path : String) : Bool :=
  s.reachableSockets.contains socket_path

/-- Embedding of `Session::cleanup`: remove `<id>.json`, `<id>.sock` and
`<id>.status`, each only if present; errors from `remove_file` propagate
(the `?` operator). -/
def cleanup (s : SysState) (id : String) : Except Unit SysState :=
  match removeIfPresent (s.jsonFiles.map Prod.fst) id with
  | .error e => .error e
  | .ok jsonKeys =>
      match removeIfPresent s.socketFiles id with
      | .error e => .error e
      | .ok socketFiles =>
          match removeIfPresent s.statusFiles id with
          | .error e => .error e
          | .ok statusFiles =>
              .ok { s with
                    jsonFiles := s.jsonFiles.filter (fun p => jsonKeys.contains p.1),
                    socketFiles := socketFiles,
                    statusFiles := statusFiles }

/-- Errors surfaced by `Session::load` in the model. -/
inductive LoadErr where
  | sessionNotFound
  | cleanupFailed
deriving Repr, DecidableEq

/-- Embedding of `Session::load`: missing record fails with session-not-found;
a record whose stored `pid` is dead triggers `cleanup(record.id)` and fails
with session-not-found; otherwise the record is returned.  The socket is never
consulted. -/
def load (s : SysState) (id : String) : SysState × Except LoadErr SessionRecord :=
  match s.findJson id with
  | none => (s, .error .sessionNotFound)
  | some rec =>
      if is_process_alive s rec.pid then (s, .ok rec)
      else
        match cleanup s rec.id with
        | .ok s1 => (s1, .error .sessionNotFound)
        | .error _ => (s, .error .cleanupFailed)

theorem filter_ne_of_not_mem (files : List String) (k : String)
    (h : k ∉ files) :
    files.filter (fun f => f ≠ k) = files := by
  apply List.filter_eq_self.mpr
  intro a ha
  simp only [ne_eq, decide_eq_true_eq]
  intro hak
  exact h (hak ▸ ha)

theorem removeIfPresent_eq (files : List String) (k : String) :
    removeIfPresent files k = .ok (files.filter (fun f => f ≠ k)) := by
  unfold removeIfPresent removeFile
  by_cases hc : k ∈ files
  · simp [hc]
  · rw [if_neg hc, filter_ne_of_not_mem files k hc]

/-- The filesystem state left behind by a (successful) `Session::cleanup`. -/
def cleanupResult (s : SysState) (id : String) : SysState :=
  { s with
    jsonFiles := s.jsonFiles.filter (fun p => p.1 ≠ id),
    socketFiles := s.socketFiles.filter (fun f => f ≠ id),
    statusFiles := s.statusFiles.filter (fun f => f ≠ id) }

theorem cleanup_eq (s : SysState) (id : String) :
    cleanup s id = .ok (cleanupResult s id) := by
  unfold cleanup cleanupResult
  rw [removeIfPresent_eq, removeIfPresent_eq, removeIfPresent_eq]
  simp only [Except.ok.injEq]
  congr 1
  apply List.filter_congr
  intro p hp
  simp only [List.elem_eq_mem, List.mem_filter, ne_eq, decide_eq_true_eq,
    decide_eq_decide]
  constructor
  · intro h
    exact h.2
  · intro hne
    exact ⟨List.mem_map_of_mem Prod.fst hp, hne⟩

theorem cleanupResult_idem (s : SysState) (id : String) :
    cleanupResult (cleanupResult s id) id = cleanupResult s id := by
  unfold cleanupResult
  simp [List.filter_filter]

/-- Claim C8: `cleanup` is idempotent: for every session id and every modelled
filesystem state, the first call succeeds, and a second call succeeds too (no
error on absent files) and leaves the state unchanged. -/
theorem cleanup_idempotent (s : SysState) (id : String) :
    ∃ s1, cleanup s id = .ok s1 ∧ cleanup s1 id = .ok s1 := by
  refine ⟨cleanupResult s id, cleanup_eq s id, ?_⟩
  rw [cleanup_eq, cleanupResult_idem]

/-- Record used in the `Session::load` counterexample. -/
def loadCexRecord : SessionRecord :=
  { id := "abcd1234", pid := 5, socket_path := "/tmp/nds/sockets/abcd1234.sock" }

/-- State used in the `Session::load` counterexample: the JSON record exists,
the daemon PID is alive, but the socket is unreachable. -/
def loadCexSys : SysState :=
  { jsonFiles := [("abcd1234", loadCexRecord)],
    socketFiles := ["abcd1234"],
    statusFiles := ["abcd1234"],
    alivePids := [5],
    reachableSockets := [] }

/-- Claim C4 counterexample: the claim says `load(id)` fails with
session-not-found whenever the socket file is unreachable; in the code `load`
checks only the PID.  With the PID alive and the socket unreachable, `load`
returns the record. -/
theorem load_ignores_socket_health_cex :
    is_process_alive loadCexSys loadCexRecord.pid = true ∧
    is_socket_healthy loadCexSys loadCexRecord.socket_path = false ∧
    (load loadCexSys "abcd1234").2 = .ok loadCexRecord ∧
    (load loadCexSys "abcd1234").2 ≠ .error .sessionNotFound := by
  refine ⟨rfl, rfl, rfl, fun h => ?_⟩
  rw [show (load loadCexSys "abcd1234").2 = .ok loadCexRecord from rfl] at h
  exact Except.noConfusion h

/-- Claim C4 amended: `load(id)` fails with session-not-found, after invoking
`cleanup`, exactly when the record exists but the stored daemon PID is not
alive; it fails without cleanup when the record file is missing; and it
returns the record whenever the record exists and the PID is alive —
socket reachability is not consulted by `load`. -/
theorem load_checks_pid_only (s : SysState) (id : String) :
    (s.findJson id = none → load s id = (s, .error .sessionNotFound)) ∧
    (∀ rec, s.findJson id = some rec → is_process_alive s rec.pid = true →
      load s id = (s, .ok rec)) ∧
    (∀ rec, s.findJson id = some rec → is_process_alive s rec.pid = false →
      load s id = (cleanupResult s rec.id, .error .sessionNotFound)) := by
  refine ⟨?_, ?_, ?_⟩
  · intro h
    unfold load
    rw [h]
  · intro rec h halive
    unfold load
    rw [h]
    simp [halive]
  · intro rec h hdead
    unfold load
    rw [h]
    simp [hdead, cleanup_eq]

/-- Witness for `load_checks_pid_only` at the concrete state of the
counterexample. -/
theorem load_checks_pid_only_witness :
    load loadCexSys "abcd1234" = (loadCexSys, .ok loadCexRecord) :=
  (load_checks_pid_only loadCexSys "abcd1234").2.1 loadCexRecord rfl rfl

/-! ## Client endpoint and broadcast (src/pty/client.rs, ClientInfo::flush_pending
and ClientInfo::send_data; src/pty/spawn.rs, PtyProcess::broadcast_to_clients) -/

/-- Outcome of one non-blocking `stream.write` call on a client socket.  The
kernel's behaviour is nondeterministic, so each client carries an oracle: a
list of outcomes consumed one per write call.  `accept n` means the call
returns `Ok(min n len)` for a buffer of length `len`; an exhausted oracle
behaves as would-block. -/
inductive WStep where
  | accept (n : Nat)
  | wouldBlock
  | interrupted
  | fatal
deriving Repr, DecidableEq

/-- Daemon-side per-client state: `written` accumulates every byte the socket
has accepted (the delivered stream), `pending_output` is the queued tail, and
`oracle` the remaining socket behaviour. -/
structure ClientConn where
  written : List Nat
  pending_output : List Nat
  oracle : List WStep
deriving Repr, DecidableEq

/-- The loop of `ClientInfo::flush_pending`: while `pending_output` is
non-empty, write it; `Ok(0)` is a write-zero error, `Ok(n)` drains `n` bytes,
would-block breaks with success, interrupted retries, other errors propagate.
Returns (written, pending, remaining oracle, error flag). -/
def flushLoop : List WStep → List Nat → List Nat →
    List Nat × List Nat × List WStep × Bool
  | oracle, written, [] => (written, [], oracle, false)
  | [], written, p => (written, p, [], false)
  | .accept n :: rest, written, p =>
      if min n p.length = 0 then (written, p, rest, true)
      else flushLoop rest (written ++ p.take (min n p.length)) (p.drop (min n p.length))
  | .wouldBlock :: rest, written, p => (written, p, rest, false)
  | .interrupted :: rest, written, p => flushLoop rest written p
  | .fatal :: rest, written, p => (written, p, rest, true)

/-- The direct-write loop of `ClientInfo::send_data` (entered with an empty
queue): write the chunk from `offset`; would-block queues the tail into
`pending_output` and breaks; `Ok(0)` and other errors abandon the remainder
and report the error. -/
def sendLoop : List WStep → List Nat → List Nat →
    List Nat × List Nat × List WStep × Bool
  | oracle, written, [] => (written, [], oracle, false)
  | [], written, d => (written, d, [], false)
  | .accept n :: rest, written, d =>
      if min n d.length = 0 then (written, [], rest, true)
      else sendLoop rest (written ++ d.take (min n d.length)) (d.drop (min n d.length))
  | .wouldBlock :: rest, written, d => (written, d, rest, false)
  | .interrupted :: rest, written, d => sendLoop rest written d
  | .fatal :: rest, written, _d => (written, [], rest, true)

/-- Embedding of `ClientInfo::flush_pending`. -/
def flush_pending (c : ClientConn) : ClientConn × Bool :=
  let r := flushLoop c.oracle c.written c.pending_output
  (⟨r.1, r.2.1, r.2.2.1⟩, r.2.2.2)

/-- Embedding of `ClientInfo::send_data`: empty chunks succeed immediately; a
non-empty queue gets the chunk appended and one flush attempt; otherwise the
direct-write loop runs. -/
def send_data (c : ClientConn) (data : List Nat) : ClientConn × Bool :=
  if data.isEmpty then (c, false)
  else if !c.pending_output.isEmpty then
    flush_pending { c with pending_output := c.pending_output ++ data }
  else
    let r := sendLoop c.oracle c.written data
    (⟨r.1, r.2.1, r.2.2.1⟩, r.2.2.2)

/-- One client's treatment inside `broadcast_to_clients`:
`client.flush_pending().and_then(|_| client.send_data(data))`; the error flag
true marks the client for removal (every error kind is removed there). -/
def deliverOne (c : ClientConn) (data : List Nat) : ClientConn × Bool :=
  match flush_pending c with
  | (c1, true) => (c1, true)
  | (c1, false) => send_data c1 data

/-- The per-client pass of `broadcast_to_clients` followed by the removal of
clients whose write reported an error. -/
def broadcastSurvivors (clients : List ClientConn) (data : List Nat) :
    List ClientConn :=
  ((clients.map (fun c => deliverOne c data)).filter (fun p => !p.2)).map Prod.fst

/-- Embedding of `PtyProcess::broadcast_to_clients`: with no clients the chunk
goes to the ring; otherwise it is delivered to each client, erroring clients
are removed, and if none survive the chunk goes to the ring. -/
def broadcast_to_clients (clients : List ClientConn) (data : List Nat)
    (ring : PtyBuffer) : List ClientConn × PtyBuffer :=
  if clients.isEmpty then (clients, ring.push data)
  else
    let survivors := broadcastSurvivors clients data
    if survivors.isEmpty then (survivors, ring.push data)
    else (survivors, ring)

theorem flushLoop_accept (n : Nat) (rest : List WStep) (written : List Nat)
    (b : Nat) (p : List Nat) :
    flushLoop (.accept n :: rest) written (b :: p) =
      if min n (b :: p).length = 0 then (written, b :: p, rest, true)
      else flushLoop rest (written ++ (b :: p).take (min n (b :: p).length))
        ((b :: p).drop (min n (b :: p).length)) := rfl

theorem sendLoop_accept (n : Nat) (rest : List WStep) (written : List Nat)
    (b : Nat) (p : List Nat) :
    sendLoop (.accept n :: rest) written (b :: p) =
      if min n (b :: p).length = 0 then (written, [], rest, true)
      else sendLoop rest (written ++ (b :: p).take (min n (b :: p).length))
        ((b :: p).drop (min n (b :: p).length)) := rfl

theorem flushLoop_conserve (oracle : List WStep) (written pending : List Nat) :
    (flushLoop oracle written pending).1 ++ (flushLoop oracle written pending).2.1
      = written ++ pending := by
  induction oracle generalizing written pending with
  | nil => cases pending <;> simp [flushLoop]
  | cons step rest ih =>
      cases pending with
      | nil => simp [flushLoop]
      | cons b p =>
          cases step with
          | accept n =>
              rw [flushLoop_accept]
              by_cases hk : min n (b :: p).length = 0
              · rw [if_pos hk]
              · rw [if_neg hk, ih, List.append_assoc, List.take_append_drop]
          | wouldBlock => simp [flushLoop]
          | interrupted => simpa [flushLoop] using ih written (b :: p)
          | fatal => simp [flushLoop]

theorem sendLoop_conserve (oracle : List WStep) (written d : List Nat)
    (h : (sendLoop oracle written d).2.2.2 = false) :
    (sendLoop oracle written d).1 ++ (sendLoop oracle written d).2.1
      = written ++ d := by
  induction oracle generalizing written d with
  | nil => cases d <;> simp [sendLoop]
  | cons step rest ih =>
      cases d with
      | nil => simp [sendLoop]
      | cons b p =>
          cases step with
          | accept n =>
              rw [sendLoop_accept] at h ⊢
              by_cases hk : min n (b :: p).length = 0
              · rw [if_pos hk] at h
                exact absurd h (by simp)
              · rw [if_neg hk] at h ⊢
                rw [ih _ _ h, List.append_assoc, List.take_append_drop]
          | wouldBlock => simp [sendLoop]
          | interrupted =>
              rw [show sendLoop (.interrupted :: rest) written (b :: p)
                    = sendLoop rest written (b :: p) from rfl] at h ⊢
              exact ih written (b :: p) h
          | fatal =>
              rw [show sendLoop (.fatal :: rest) written (b :: p)
                    = (written, [], rest, true) from rfl] at h
              exact absurd h (by simp)

theorem flush_pending_conserve (c : ClientConn) :
    (flush_pending c).1.written ++ (flush_pending c).1.pending_output
      = c.written ++ c.pending_output :=
  flushLoop_conserve c.oracle c.written c.pending_output

theorem send_data_conserve (c : ClientConn) (data : List Nat)
    (h : (send_data c data).2 = false) :
    (send_data c data).1.written ++ (send_data c data).1.pending_output
      = c.written ++ c.pending_output ++ data := by
  unfold send_data at h ⊢
  by_cases hd : data.isEmpty
  · rcases List.isEmpty_iff.mp hd with rfl
    simp [hd]
  · by_cases hp : c.pending_output.isEmpty
    · simp only [hd, Bool.false_eq_true, if_false, hp, Bool.not_true,
        Bool.false_eq_true, if_false] at h ⊢
      rcases List.isEmpty_iff.mp hp with hpnil
      rw [hpnil]
      simpa using sendLoop_conserve c.oracle c.written data h
    · simp only [hd, Bool.false_eq_true, if_false, hp, Bool.not_false,
        if_true] at h ⊢
      simpa [List.append_assoc] using
        flush_pending_conserve { c with pending_output := c.pending_output ++ data }

theorem deliverOne_conserve (c : ClientConn) (data : List Nat)
    (h : (deliverOne c data).2 = false) :
    (deliverOne c data).1.written ++ (deliverOne c data).1.pending_output
      = c.written ++ c.pending_output ++ data := by
  unfold deliverOne at h ⊢
  rcases hf : flush_pending c with ⟨c1, e1⟩
  cases e1 with
  | true => simp [hf] at h
  | false =>
      simp only [hf] at h ⊢
      have hc1 : c1.written ++ c1.pending_output = c.written ++ c.pending_output := by
        have := flush_pending_conserve c
        rw [hf] at this
        exact this
      rw [send_data_conserve c1 data h, hc1]

/-- Claim C3: for every chunk the daemon reads from the master, if any client
survives the broadcast then every surviving client's delivered-plus-queued byte
stream is its old stream extended with exactly the chunk (so each byte of the
chunk was written to that client's socket or appended to its
`pending_output`); if no client survives (in particular if none was attached),
the whole chunk is pushed into the output ring.  No byte is dropped. -/
theorem broadcast_no_byte_dropped (clients : List ClientConn) (data : List Nat)
    (ring : PtyBuffer) :
    (∀ c1 ∈ (broadcast_to_clients clients data ring).1,
      ∃ c ∈ clients,
        c1.written ++ c1.pending_output = c.written ++ c.pending_output ++ data) ∧
    ((broadcast_to_clients clients data ring).1 = [] →
      (broadcast_to_clients clients data ring).2 = ring.push data) ∧
    ((broadcast_to_clients clients data ring).1 ≠ [] →
      (broadcast_to_clients clients data ring).2 = ring) := by
  have hmem_conserve : ∀ c1 ∈ broadcastSurvivors clients data,
      ∃ c ∈ clients,
        c1.written ++ c1.pending_output = c.written ++ c.pending_output ++ data := by
    intro c1 hc1
    unfold broadcastSurvivors at hc1
    rcases List.mem_map.mp hc1 with ⟨⟨c2, e2⟩, hmem, hfst⟩
    rcases List.mem_filter.mp hmem with ⟨hmem2, he2⟩
    rcases List.mem_map.mp hmem2 with ⟨c, hcmem, hdel⟩
    refine ⟨c, hcmem, ?_⟩
    have he2f : (deliverOne c data).2 = false := by
      rw [hdel]
      simpa using he2
    have hcons := deliverOne_conserve c data he2f
    rw [hdel] at hcons
    simp only at hfst
    rw [hfst] at hcons
    exact hcons
  by_cases hc : clients.isEmpty
  · rcases List.isEmpty_iff.mp hc with rfl
    have hb : broadcast_to_clients [] data ring = ([], ring.push data) := rfl
    rw [hb]
    exact ⟨fun c1 hc1 => absurd hc1 (List.not_mem_nil c1), fun _ => rfl,
      fun hne => absurd rfl hne⟩
  · have hcne : ¬clients.isEmpty = true := hc
    by_cases hs : (broadcastSurvivors clients data).isEmpty
    · have hb : broadcast_to_clients clients data ring
          = (broadcastSurvivors clients data, ring.push data) := by
        unfold broadcast_to_clients
        rw [if_neg hcne]
        simp only [hs, if_true]
      rw [hb]
      exact ⟨hmem_conserve, fun _ => rfl,
        fun hne => absurd (List.isEmpty_iff.mp hs) hne⟩
    · have hsne : ¬(broadcastSurvivors clients data).isEmpty = true := hs
      have hb : broadcast_to_clients clients data ring
          = (broadcastSurvivors clients data, ring) := by
        unfold broadcast_to_clients
        rw [if_neg hcne]
        simp only [hsne, Bool.false_eq_true, if_false]
      rw [hb]
      exact ⟨hmem_conserve,
        fun habs => absurd (List.isEmpty_iff.mpr habs) hsne, fun _ => rfl⟩

/-- Witness for `broadcast_no_byte_dropped`: one healthy client whose socket
accepts 5 bytes; the chunk [7] survives into its delivered stream and the ring
is untouched. -/
theorem broadcast_no_byte_dropped_witness :
    (broadcast_to_clients [⟨[], [], [WStep.accept 5]⟩] [7] (PtyBuffer.new 4)).2
      = PtyBuffer.new 4 ∧
    ∃ c ∈ [(⟨[], [], [WStep.accept 5]⟩ : ClientConn)],
      (⟨[7], [], []⟩ : ClientConn).written ++
        (⟨[7], [], []⟩ : ClientConn).pending_output
        = c.written ++ c.pending_output ++ [7] := by
  have h := broadcast_no_byte_dropped [⟨[], [], [WStep.accept 5]⟩] [7] (PtyBuffer.new 4)
  refine ⟨h.2.2 (by decide), ?_⟩
  exact h.1 ⟨[7], [], []⟩ (by decide)

/-! ## Control envelope parsing (src/pty/socket.rs: parse_nds_command,
get_command_end, is_valid_command, sanitize_input, send_resize_command) -/

/-- Codepoints of a Lean string literal, used for the command constants. -/
def str2cp (s : String) : List Nat :=
  s.data.map Char.toNat

/-- Whether a byte is a UTF-8 continuation byte (0x80..0xBF). -/
def isCont (c : Nat) : Bool :=
  0x80 ≤ c && c ≤ 0xBF

/-- Valid ranges of the first continuation byte of a 3-byte UTF-8 sequence
(excludes overlong encodings and surrogates, as Rust str::from_utf8 does). -/
def utf8Lead3Ok (b c1 : Nat) : Bool :=
  if b = 0xE0 then 0xA0 ≤ c1 && c1 ≤ 0xBF
  else if b = 0xED then 0x80 ≤ c1 && c1 ≤ 0x9F
  else isCont c1

/-- Valid ranges of the first continuation byte of a 4-byte UTF-8 sequence
(excludes overlong encodings and codepoints above U+10FFFF). -/
def utf8Lead4Ok (b c1 : Nat) : Bool :=
  if b = 0xF0 then 0x90 ≤ c1 && c1 ≤ 0xBF
  else if b = 0xF4 then 0x80 ≤ c1 && c1 ≤ 0x8F
  else isCont c1

/-- Model of Rust `std::str::from_utf8` plus char iteration: validates a byte
list as UTF-8 and yields its codepoints, or `none` when invalid. -/
def utf8Decode : List Nat → Option (List Nat)
  | [] => some []
  | b :: rest =>
      if b < 0x80 then (utf8Decode rest).map (fun cs => b :: cs)
      else if 0xC2 ≤ b && b ≤ 0xDF then
        match rest with
        | c1 :: r =>
            if isCont c1 then
              (utf8Decode r).map (fun cs => ((b - 0xC0) * 0x40 + (c1 - 0x80)) :: cs)
            else none
        | [] => none
      else if b = 0xE0 || (0xE1 ≤ b && b ≤ 0xEC) || b = 0xED || (0xEE ≤ b && b ≤ 0xEF) then
        match rest with
        | c1 :: c2 :: r =>
            if utf8Lead3Ok b c1 && isCont c2 then
              (utf8Decode r).map
                (fun cs => ((b - 0xE0) * 0x1000 + (c1 - 0x80) * 0x40 + (c2 - 0x80)) :: cs)
            else none
        | _ => none
      else if b = 0xF0 || (0xF1 ≤ b && b ≤ 0xF3) || b = 0xF4 then
        match rest with
        | c1 :: c2 :: c3 :: r =>
            if utf8Lead4Ok b c1 && isCont c2 && isCont c3 then
              (utf8Decode r).map
                (fun cs => ((b - 0xF0) * 0x40000 + (c1 - 0x80) * 0x1000
                  + (c2 - 0x80) * 0x40 + (c3 - 0x80)) :: cs)
            else none
        | _ => none
      else none

/-- Byte index of the first BEL (0x07).  For valid UTF-8 this equals the byte
index `cmd_str.find(BEL)` returns in the source, because 0x07 can only occur
as a one-byte ASCII char. -/
def findBel : List Nat → Option Nat
  | [] => none
  | c :: cs => if c = 7 then some 0 else (findBel cs).map (fun i => i + 1)

/-- Model of Rust `str::split` on a colon over codepoints: always at least one
(possibly empty) segment. -/
def splitOnColon : List Nat → List (List Nat)
  | [] => [[]]
  | c :: cs =>
      if c = 58 then [] :: splitOnColon cs
      else
        match splitOnColon cs with
        | [] => [[c]]
        | p :: ps => (c :: p) :: ps

/-- Unicode Cc control category, as Rust `char::is_control`. -/
def isControlChar (c : Nat) : Bool :=
  c ≤ 0x1F || (0x7F ≤ c && c ≤ 0x9F)

/-- Embedding of `sanitize_input` (socket.rs): strip control characters other
than newline, carriage return and tab, and clip to 4096 chars. -/
def sanitize_input (s : List Nat) : List Nat :=
  (s.filter (fun c => !isControlChar c || c = 10 || c = 13 || c = 9)).take 4096

/-- The fixed command whitelist of `is_valid_command` (socket.rs). -/
def ALLOWED_COMMANDS : List (List Nat) :=
  [str2cp ("resize"), str2cp ("detach"), str2cp ("attach"), str2cp ("list"),
   str2cp ("kill"), str2cp ("switch"), str2cp ("scrollback"), str2cp ("clear"),
   str2cp ("refresh")]

/-- Embedding of `is_valid_command`: the part of the body before the first
colon must be in the whitelist. -/
def is_valid_command (cmd : List Nat) : Bool :=
  match (splitOnColon cmd).head? with
  | some command => ALLOWED_COMMANDS.contains command
  | none => false

/-- The bytes of the envelope opener `ESC ] n d s :`. -/
def ndsHeader : List Nat :=
  [27, 93, 110, 100, 115, 58]

/-- Embedding of `parse_nds_command` (socket.rs): requires 10 < len < 8192 and
the `ESC]nds:` opener, valid UTF-8, a BEL, a whitelisted command, then splits
the body on colons, sanitizes each part, and returns (command, args) when
there are between 1 and 10 parts. -/
def parse_nds_command (data : List Nat) : Option (List Nat × List (List Nat)) :=
  if 10 < data.length && data.length < 8192 && data.take 6 == ndsHeader then
    match utf8Decode data with
    | none => none
    | some _ =>
        match findBel data with
        | none => none
        | some endIdx =>
            match utf8Decode ((data.take endIdx).drop 6) with
            | none => none
            | some cmd =>
                if is_valid_command cmd then
                  let parts := (splitOnColon cmd).map sanitize_input
                  match parts with
                  | [] => none
                  | p :: ps => if parts.length ≤ 10 then some (p, ps) else none
                else none
  else none

/-- Embedding of `get_command_end` (socket.rs): index one past the BEL, only
when len < 8192, the opener matches, the data is valid UTF-8 and the BEL index
is below 1024. -/
def get_command_end (data : List Nat) : Option Nat :=
  if data.length < 8192 && data.take 6 == ndsHeader then
    match utf8Decode data with
    | none => none
    | some _ =>
        match findBel data with
        | some endIdx => if endIdx < 1024 then some (endIdx + 1) else none
        | none => none
  else none

/-- The `u16::from_str` digit loop with the u16 overflow check. -/
def parseDigitsAddLoop : List Nat → Nat → Option Nat
  | [], acc => some acc
  | c :: cs, acc =>
      if 48 ≤ c && c ≤ 57 then
        if acc * 10 + (c - 48) < 65536 then parseDigitsAddLoop cs (acc * 10 + (c - 48))
        else none
      else none

/-- The `u16::from_str` loop after a minus sign: each digit is subtracted with
a checked subtraction from 0, so only zero digits survive. -/
def parseDigitsSubLoop : List Nat → Option Nat
  | [] => some 0
  | c :: cs => if c = 48 then parseDigitsSubLoop cs else none

/-- Model of Rust `str::parse::\x3cu16\x3e` over codepoints: optional sign, at
least one digit, checked u16 arithmetic. -/
def parseU16 : List Nat → Option Nat
  | [] => none
  | c :: cs =>
      if c = 43 then (if cs.isEmpty then none else parseDigitsAddLoop cs 0)
      else if c = 45 then (if cs.isEmpty then none else parseDigitsSubLoop cs)
      else parseDigitsAddLoop (c :: cs) 0

/-- Decimal codepoints of a natural number (Rust `format!` of an integer). -/
def natDec (n : Nat) : List Nat :=
  (Nat.repr n).data.map Char.toNat

/-- The clamp `v.min(9999).max(1)` used by `send_resize_command`. -/
def clampDim (v : Nat) : Nat :=
  max (min v 9999) 1

/-- The wire bytes `ESC]nds:resize:<cols>:<rows>BEL`. -/
def resizeEnvelope (cols rows : Nat) : List Nat :=
  ndsHeader ++ str2cp ("resize") ++ [58] ++ natDec cols ++ [58] ++ natDec rows ++ [7]

/-- Embedding of `send_resize_command` (socket.rs): clamp both dimensions to
[1, 9999], then format the resize envelope. -/
def send_resize_command (cols rows : Nat) : List Nat :=
  resizeEnvelope (clampDim cols) (clampDim rows)

/-! ## Per-chunk client input dispatch (src/pty/spawn.rs,
PtyProcess::handle_client_input, the Ok(n) arm) -/

/-- Observable effects of handling one chunk read from one client: writes
issued to the PTY master (in order), the dimensions passed to the window-size
ioctl (with SIGWINCH), the client dimension update, the reply written back to
this client's stream, and a pending disconnect target. -/
structure ChunkEffect where
  pty_writes : List (List Nat)
  resize : Option (Nat × Nat)
  client_dims : Option (Nat × Nat)
  reply : Option (List Nat)
  pending_disconnect : Option (List Nat)
deriving Repr, DecidableEq

/-- The no-command path of `handle_client_input`: the whole chunk is written
to the PTY master. -/
def forwardAll (data : List Nat) : ChunkEffect :=
  { pty_writes := [data], resize := none, client_dims := none,
    reply := none, pending_disconnect := none }

/-- The writes the resize arm issues after the command: the bytes past the
BEL, when `get_command_end` finds one and it is inside the chunk. -/
def tailForward (data : List Nat) : List (List Nat) :=
  match get_command_end data with
  | some e => if e < data.length then [data.drop e] else []
  | none => []

/-- The `list_clients` reply string. -/
def listClientsReply (client_count : Nat) : List Nat :=
  str2cp ("Connected clients: " ++ Nat.repr client_count ++ "\r\n")

/-- Embedding of the Ok(n) arm of `handle_client_input` for one client chunk:
a parsed `resize` with two u16 arguments updates the client dimensions, sets
the master winsize to them and forwards the bytes after BEL; `list_clients`
replies with the count; `disconnect_client` replies and queues the target
unless it is the caller; everything else — including chunks whose envelope
fails `parse_nds_command` — is written verbatim to the PTY master. -/
def handleChunk (client_id : List Nat) (client_count : Nat) (data : List Nat) :
    ChunkEffect :=
  match parse_nds_command data with
  | some (cmd, args) =>
      if cmd == str2cp ("resize") && args.length == 2 then
        match parseU16 (args.getD 0 []), parseU16 (args.getD 1 []) with
        | some cols, some rows =>
            { pty_writes := tailForward data,
              resize := some (cols, rows),
              client_dims := some (cols, rows),
              reply := none, pending_disconnect := none }
        | _, _ => forwardAll data
      else if cmd == str2cp ("list_clients") then
        { pty_writes := [], resize := none, client_dims := none,
          reply := some (listClientsReply client_count),
          pending_disconnect := none }
      else if cmd == str2cp ("disconnect_client") && !args.isEmpty then
        if client_id == args.getD 0 [] then
          { pty_writes := [], resize := none, client_dims := none,
            reply := some (str2cp ("Cannot disconnect yourself. Use ~d to detach.\r\n")),
            pending_disconnect := none }
        else
          { pty_writes := [], resize := none, client_dims := none,
            reply := some (str2cp ("Client ") ++ args.getD 0 []
              ++ str2cp (" will be disconnected\r\n")),
            pending_disconnect := some (args.getD 0 []) }
      else forwardAll data
  | none => forwardAll data

/-- The chunk `ESC]nds:list_clients BEL` (no space), claimed to be intercepted. -/
def lcChunk : List Nat :=
  [27] ++ str2cp ("]nds:list_clients") ++ [7]

/-- Claim C2 counterexample: `list_clients` is not in the whitelist of
`is_valid_command`, so its well-formed envelope fails `parse_nds_command`, no
reply is produced, and every byte of the envelope is forwarded to the PTY
master — the claim says none of the envelope's bytes reach the PTY and the
command is acted on. -/
theorem list_clients_envelope_reaches_pty_cex :
    is_valid_command (str2cp ("list_clients")) = false ∧
    parse_nds_command lcChunk = none ∧
    (handleChunk (str2cp ("aaaa")) 1 lcChunk).pty_writes = [lcChunk] ∧
    (handleChunk (str2cp ("aaaa")) 1 lcChunk).reply = none := by
  refine ⟨by decide, by decide, by decide, by decide⟩

/-- Claim C2 amended: only a parsed whitelist envelope whose command is
`resize` with two u16 arguments is intercepted (its bytes up to and including
the BEL never reach the PTY; the bytes after the BEL do); every chunk failing
`parse_nds_command` — including well-formed envelopes with unknown commands
and the `list_clients` / `disconnect_client` envelopes, which are absent from
the whitelist — is forwarded verbatim to the PTY master, as is any parsed
non-`resize` command. -/
theorem control_envelope_dispatch (data client_id : List Nat) (cnt : Nat) :
    (parse_nds_command data = none → handleChunk client_id cnt data = forwardAll data) ∧
    (is_valid_command (str2cp ("list_clients")) = false ∧
      is_valid_command (str2cp ("disconnect_client")) = false) ∧
    (∀ a b cols rows, parse_nds_command data = some (str2cp ("resize"), [a, b]) →
      parseU16 a = some cols → parseU16 b = some rows →
      (handleChunk client_id cnt data).pty_writes = tailForward data ∧
      (handleChunk client_id cnt data).resize = some (cols, rows) ∧
      (handleChunk client_id cnt data).reply = none) ∧
    (∀ cmd args, parse_nds_command data = some (cmd, args) →
      cmd ≠ str2cp ("resize") → cmd ≠ str2cp ("list_clients") →
      cmd ≠ str2cp ("disconnect_client") →
      handleChunk client_id cnt data = forwardAll data) := by
  refine ⟨?_, ⟨by decide, by decide⟩, ?_, ?_⟩
  · intro hp
    unfold handleChunk
    rw [hp]
  · intro a b cols rows hp ha hb
    unfold handleChunk
    rw [hp]
    simp only [beq_self_eq_true, Bool.true_and, List.length_cons,
      List.length_singleton, List.length_nil, Nat.reduceAdd, beq_iff_eq,
      if_pos rfl, List.getD_cons_zero, List.getD_cons_succ]
    rw [ha, hb]
    exact ⟨rfl, rfl, rfl⟩
  · intro cmd args hp hne1 hne2 hne3
    unfold handleChunk
    rw [hp]
    have h1 : (cmd == str2cp ("resize")) = false := beq_eq_false_iff_ne.mpr hne1
    have h2 : (cmd == str2cp ("list_clients")) = false := beq_eq_false_iff_ne.mpr hne2
    have h3 : (cmd == str2cp ("disconnect_client")) = false := beq_eq_false_iff_ne.mpr hne3
    simp [h1, h2, h3]

/-- Witness for `control_envelope_dispatch`: a well-formed resize envelope with
a trailing shell command is intercepted and only the tail is forwarded, and a
plain keystroke chunk is forwarded verbatim. -/
theorem control_envelope_dispatch_witness :
    (handleChunk (str2cp ("aaaa")) 1
        ([27] ++ str2cp ("]nds:resize:80:24") ++ [7] ++ [108, 115, 10])).pty_writes
      = [[108, 115, 10]] ∧
    handleChunk (str2cp ("aaaa")) 1 [104, 105] = forwardAll [104, 105] := by
  constructor
  · have h := (control_envelope_dispatch
        ([27] ++ str2cp ("]nds:resize:80:24") ++ [7] ++ [108, 115, 10])
        (str2cp ("aaaa")) 1).2.2.1
        (str2cp ("80")) (str2cp ("24")) 80 24 (by decide) (by decide) (by decide)
    rw [h.1]
    decide
  · exact (control_envelope_dispatch [104, 105] (str2cp ("aaaa")) 1).1 (by decide)

/-- The chunk `ESC]nds:resize:0:0 BEL` (no spaces). -/
def resizeZeroChunk : List Nat :=
  [27] ++ str2cp ("]nds:resize:0:0") ++ [7]

/-- The chunk `ESC]nds:resize:20000:24 BEL` (no spaces). -/
def resizeBigChunk : List Nat :=
  [27] ++ str2cp ("]nds:resize:20000:24") ++ [7]

/-- Claim C5 counterexample: the daemon applies the parsed u16 dimensions with
no clamping: a `resize:0:0` envelope reaches the window-size ioctl as (0, 0)
and a `resize:20000:24` envelope as (20000, 24), though the claim says 0 and
values above 9999 never reach the ioctl. -/
theorem resize_unclamped_reaches_ioctl_cex :
    (handleChunk (str2cp ("aaaa")) 1 resizeZeroChunk).resize = some (0, 0) ∧
    (handleChunk (str2cp ("aaaa")) 1 resizeBigChunk).resize = some (20000, 24) ∧
    ¬(1 ≤ (0 : Nat) ∧ (20000 : Nat) ≤ 9999) := by
  refine ⟨by decide, by decide, by decide⟩

/-- Claim C5 amended: the [1, 9999] clamp lives on the client side only —
`send_resize_command` clamps both dimensions into [1, 9999] before emitting
the envelope — while the daemon applies whatever u16 values parse out of a
`resize` envelope verbatim to the window-size ioctl, without clamping. -/
theorem resize_clamp_client_side_only (data a b client_id : List Nat)
    (cnt cols rows c r : Nat) :
    (1 ≤ clampDim c ∧ clampDim c ≤ 9999 ∧
      send_resize_command c r = resizeEnvelope (clampDim c) (clampDim r)) ∧
    (parse_nds_command data = some (str2cp ("resize"), [a, b]) →
      parseU16 a = some cols → parseU16 b = some rows →
      (handleChunk client_id cnt data).resize = some (cols, rows)) := by
  constructor
  · refine ⟨?_, ?_, rfl⟩
    · unfold clampDim
      omega
    · unfold clampDim
      omega
  · intro hp ha hb
    unfold handleChunk
    rw [hp]
    simp only [beq_self_eq_true, Bool.true_and, List.length_cons,
      List.length_singleton, List.length_nil, Nat.reduceAdd, beq_iff_eq,
      if_pos rfl, List.getD_cons_zero, List.getD_cons_succ]
    rw [ha, hb]
    rfl

/-- Witness for `resize_clamp_client_side_only`: the clamp at 0 gives 1, and a
concrete `resize:80:24` envelope is applied as (80, 24). -/
theorem resize_clamp_client_side_only_witness :
    1 ≤ clampDim 0 ∧
    (handleChunk (str2cp ("aaaa")) 1
        ([27] ++ str2cp ("]nds:resize:80:24") ++ [7])).resize = some (80, 24) := by
  have h := resize_clamp_client_side_only
    ([27] ++ str2cp ("]nds:resize:80:24") ++ [7])
    (str2cp ("80")) (str2cp ("24")) (str2cp ("aaaa")) 1 80 24 0 0
  exact ⟨h.1.1, h.2 (by decide) (by decide) (by decide)⟩

end DetachedShell
